import Mathlib

/-!
# Verification of the PaddleHub sub-layer addressing utility

Shallow embedding of the TheseusLayer sub-layer locate/replace/truncate
utility from `src/modules/image/classification/esnet_x0_5_imagenet/model.py`,
of the no-input branch of `pixel2style2pixel.style_transfer` from
`src/modules/image/Image_gan/gan/pixel2style2pixel/module.py`, and of the
missing-file branch of `DarkNet53.run_cmd` from
`src/modules/image/classification/darknet53_imagenet/module.py`.

A Paddle layer graph is modelled as a tree: each node carries a class tag,
a flag recording whether the class supports `__len__`/`__getitem__`/
`__setitem__` (true for `paddle.nn.Sequential`-like containers, false for
plain `paddle.nn.Layer` subclasses), and the ordered mapping of registered
sub-layer names to sub-layers (`_sub_layers`, a Python insertion-ordered
dict).  Attribute lookup (`getattr`) is modelled over this registered
sub-layer mapping.  Python exceptions are modelled with `Except String`,
the Python `None` sentinel returned by `parse_pattern_str` with
`Option.none`, and in-place mutation of the (unaliased) object tree by
explicit state passing.
-/

set_option autoImplicit false

namespace PaddleHubModel

universe u

/-- A node of the composite layer graph: class tag, whether the class is a
sequence container (supports `len`, `[]` and `[]=` like `nn.Sequential`),
and the ordered `_sub_layers` mapping. -/
inductive Layer where
  | mk : String → Bool → List (String × Layer) → Layer

/-- Class tag of a layer node. -/
def Layer.tag : Layer → String
  | .mk t _ _ => t

/-- Whether the layer's class is a sequence container. -/
def Layer.seq : Layer → Bool
  | .mk _ s _ => s

/-- The ordered `_sub_layers` mapping of the node. -/
def Layer.children : Layer → List (String × Layer)
  | .mk _ _ c => c

theorem Layer.eta (l : Layer) : Layer.mk l.tag l.seq l.children = l := by
  cases l; rfl

@[simp] theorem Layer.tag_mk (t : String) (s : Bool) (c : List (String × Layer)) :
    (Layer.mk t s c).tag = t := rfl

@[simp] theorem Layer.seq_mk (t : String) (s : Bool) (c : List (String × Layer)) :
    (Layer.mk t s c).seq = s := rfl

@[simp] theorem Layer.children_mk (t : String) (s : Bool) (c : List (String × Layer)) :
    (Layer.mk t s c).children = c := rfl

/-- The `Identity` no-op layer from `model.py` (class `Identity(nn.Layer)`):
a plain (non-sequence) layer with no sub-layers. -/
def Identity : Layer := .mk "Identity" false []

/-- First-match lookup in an ordered association list, the model of reading
a key from a Python dict such as `_sub_layers`. -/
def lookupChild {α : Type u} : List (String × α) → String → Option α
  | [], _ => none
  | (k, v) :: rest, n => if k == n then some v else lookupChild rest n

/-- Python dict assignment `d[k] = v`: an existing key keeps its position
and gets the new value, a fresh key is appended at the end. -/
def assocSet {α : Type u} : List (String × α) → String → α → List (String × α)
  | [], k, v => [(k, v)]
  | (k', v') :: rest, k, v =>
    if k' == k then (k', v) :: rest else (k', v') :: assocSet rest k v

/-- `getattr(layer, name, None)` restricted to registered sub-layers. -/
def Layer.getattr (l : Layer) (n : String) : Option Layer := lookupChild l.children n

/-- `Sequential.__getitem__` with a string key: `self._sub_layers[name]`
(the model returns `none` where Python raises `KeyError`). -/
def Layer.getitem (l : Layer) (key : String) : Option Layer := lookupChild l.children key

/-- Python truthiness of a layer object: `Sequential`-like classes define
`__len__`, so an empty container is falsy; plain layers are always truthy. -/
def pyTruthyLayer (l : Layer) : Bool := if l.seq then !l.children.isEmpty else true

/-- Python truthiness of the parsed index slot (`None` or a string):
`None` and the empty string are falsy. -/
def pyTruthy : Option String → Bool
  | none => false
  | some s => !s.isEmpty

/-- Splitting a list of characters at every occurrence of a separator
character, keeping empty fragments, as Python `str.split(sep)` does. -/
def splitCharsAux (sep : Char) : List Char → List Char → List (List Char)
  | [], acc => [acc.reverse]
  | c :: cs, acc =>
    if c == sep then acc.reverse :: splitCharsAux sep cs [] else splitCharsAux sep cs (c :: acc)

/-- Python `s.split(sep)` for a one-character separator (the code only
splits on `"."`, `"["` and `"]"`). -/
def pySplit (sep : Char) (s : String) : List String :=
  (splitCharsAux sep s.toList []).map (fun cs => String.mk cs)

/-- Python `c in s` membership test for a single character. -/
def pyContains (c : Char) (s : String) : Bool := s.toList.contains c

/-- The digits of a non-empty all-digit character list as a number
(helper for the model of Python `int()`). -/
def digitsToNat : List Char → Option Nat
  | [] => none
  | cs =>
    if cs.all Char.isDigit then
      some (cs.foldl (fun n c => 10 * n + (c.toNat - 48)) 0)
    else none

/-- Model of Python `int(s)` on a string: optional surrounding whitespace,
an optional sign, then decimal digits; `none` models the raised
`ValueError`.  (Underscore digit grouping accepted by CPython is not
modelled; no pattern in scope uses it.) -/
def pyIntOfString (s : String) : Option Int :=
  let t := (s.toList.dropWhile Char.isWhitespace).reverse.dropWhile Char.isWhitespace |>.reverse
  match t with
  | '-' :: rest => (digitsToNat rest).map (fun n => -(n : Int))
  | '+' :: rest => (digitsToNat rest).map (fun n => (n : Int))
  | cs => (digitsToNat cs).map (fun n => (n : Int))

/-- One resolution step produced by `parse_pattern_str`: the dict
`{"layer": ..., "name": ..., "index": ...}`.  `layer` is the resolved
node (post-index when an index was applied), `name` the attribute name,
`index` the raw bracket text (`none` models Python `None`). -/
structure Step where
  layer : Layer
  name : String
  index : Option String

/-- Splitting one pattern segment into name and optional bracket text:
`pattern_list[0].split('[')[0]` and
`pattern_list[0].split('[')[1].split(']')[0]`. -/
def parseSegment (seg : String) : String × Option String :=
  if pyContains '[' seg then
    match pySplit '[' seg with
    | name :: rest1 :: _ => (name, some ((pySplit ']' rest1).headD ""))
    | _ => (seg, none)
  else (seg, none)

/-- The `while pattern_list:` loop of `parse_pattern_str`.  Deviations from
returning the built `layer_list` are Python control effects: `.error`
models a raised exception (`ValueError` from `int()`, `TypeError` from
`len()` on a non-sequence layer, `KeyError` from `_sub_layers[...]`),
`.ok none` models `return None`.  The bounds test short-circuits exactly
as `int(i) < 0 or int(i) >= len(target_layer)` does, and the index branch
is guarded by `if target_layer_index and target_layer:` — both the index
string and the layer object must be truthy. -/
def parseLoop : List String → Layer → Except String (Option (List Step))
  | [], _ => .ok (some [])
  | seg :: rest, parentLayer =>
    let nm := (parseSegment seg).1
    let ix := (parseSegment seg).2
    match parentLayer.getattr nm with
    | none => .ok none
    | some tl =>
      if pyTruthy ix && pyTruthyLayer tl then
        match pyIntOfString (ix.getD "") with
        | none => .error "ValueError"
        | some i =>
          if i < 0 then .ok none
          else if !tl.seq then .error "TypeError"
          else if (tl.children.length : Int) ≤ i then .ok none
          else
            match tl.getitem (ix.getD "") with
            | none => .error "KeyError"
            | some tl2 =>
              match parseLoop rest tl2 with
              | .error e => .error e
              | .ok none => .ok none
              | .ok (some steps) => .ok (some (⟨tl2, nm, ix⟩ :: steps))
      else
        match parseLoop rest tl with
        | .error e => .error e
        | .ok none => .ok none
        | .ok (some steps) => .ok (some (⟨tl, nm, ix⟩ :: steps))

/-- `parse_pattern_str(pattern, parent_layer)` from `model.py`:
split the pattern on `"."` (the emptiness check on the split result is
kept although `str.split` never returns an empty list), then walk the
segments. -/
def parse_pattern_str (pattern : String) (parentLayer : Layer) :
    Except String (Option (List Step)) :=
  let patternList := pySplit '.' pattern
  if patternList.isEmpty then .ok none else parseLoop patternList parentLayer

/-- First loop of `set_identity`: iterate `parent_layer._sub_layers` in
order; once the flag is set every later entry is replaced by a fresh
`Identity()`; the entry whose name matches `layer_name` sets the flag and
is itself left untouched. -/
def setIdentityPass1 : List (String × Layer) → String → Bool → Bool × List (String × Layer)
  | [], _, sa => (sa, [])
  | (k, v) :: rest, nm, sa =>
    if sa then
      let r := setIdentityPass1 rest nm true
      (r.1, (k, Identity) :: r.2)
    else if k == nm then
      let r := setIdentityPass1 rest nm true
      (r.1, (k, v) :: r.2)
    else
      let r := setIdentityPass1 rest nm false
      (r.1, (k, v) :: r.2)

/-- Second loop of `set_identity`: iterate the sub-layers of
`parent_layer._sub_layers[layer_name]`; entries after the one whose key
equals `layer_index` are replaced via `__setitem__`, which only exists on
sequence containers — on a plain layer the assignment raises `TypeError`
(the `isSeq` argument records the container class of that child). -/
def setIdentityPass2 :
    List (String × Layer) → String → Bool → Bool → Except String (Bool × List (String × Layer))
  | [], _, sa, _ => .ok (sa, [])
  | (k, v) :: rest, ixs, sa, isSeq =>
    if sa then
      if isSeq then
        match setIdentityPass2 rest ixs true isSeq with
        | .error e => .error e
        | .ok r => .ok (r.1, (k, Identity) :: r.2)
      else .error "TypeError"
    else if k == ixs then
      match setIdentityPass2 rest ixs true isSeq with
      | .error e => .error e
      | .ok r => .ok (r.1, (k, v) :: r.2)
    else
      match setIdentityPass2 rest ixs false isSeq with
      | .error e => .error e
      | .ok r => .ok (r.1, (k, v) :: r.2)

/-- `set_identity(parent_layer, layer_name, layer_index)` from `model.py`.
Returns the final `stop_after` flag together with the mutated parent.
The second loop runs only when `layer_index and stop_after` is truthy;
`parent_layer._sub_layers[layer_name]` is then read (a missing key would
raise `KeyError`) and the possibly-mutated child is written back at its
original position. -/
def set_identity (parent : Layer) (layerName : String) (layerIndex : Option String) :
    Except String (Bool × Layer) :=
  let p1 := setIdentityPass1 parent.children layerName false
  if pyTruthy layerIndex && p1.1 then
    match lookupChild p1.2 layerName with
    | none => .error "KeyError"
    | some child =>
      match setIdentityPass2 child.children (layerIndex.getD "") false child.seq with
      | .error e => .error e
      | .ok r =>
        .ok (r.1, Layer.mk parent.tag parent.seq
              (assocSet p1.2 layerName (Layer.mk child.tag child.seq r.2)))
  else .ok (p1.1, Layer.mk parent.tag parent.seq p1.2)

/-- Reading the child a resolution step addressed: Python keeps the object
reference `layer_dict["layer"]`; in the unaliased tree this is the
attribute `name`, descended through `[index]` exactly when the guard
`if target_layer_index and target_layer:` of `parse_pattern_str` held. -/
def childAt (l : Layer) (name : String) (idx : Option String) : Option Layer :=
  match l.getattr name with
  | none => none
  | some c =>
    if pyTruthy idx && pyTruthyLayer c then c.getitem (idx.getD "") else some c

/-- Writing back at the address `childAt` reads: the state-passing
counterpart of mutating the object `layer_dict["layer"]` in place. -/
def setAt (l : Layer) (name : String) (idx : Option String) (v : Layer) : Layer :=
  match l.getattr name with
  | none => l
  | some c =>
    if pyTruthy idx && pyTruthyLayer c then
      Layer.mk l.tag l.seq
        (assocSet l.children name (Layer.mk c.tag c.seq (assocSet c.children (idx.getD "") v)))
    else Layer.mk l.tag l.seq (assocSet l.children name v)

/-- The `for layer_dict in layer_list:` loop of `stop_after`: call
`set_identity` at each level (its mutations are kept even on failure),
abort with `False` when a level fails, otherwise descend into
`layer_dict["layer"]`. -/
def stopAfterLoop : Layer → List Step → Except String (Bool × Layer)
  | parent, [] => .ok (true, parent)
  | parent, step :: rest =>
    match set_identity parent step.name step.index with
    | .error e => .error e
    | .ok r =>
      if r.1 then
        match childAt r.2 step.name step.index with
        | none => .ok (false, r.2)
        | some sub =>
          match stopAfterLoop sub rest with
          | .error e => .error e
          | .ok r2 => .ok (r2.1, setAt r.2 step.name step.index r2.2)
      else .ok (false, r.2)

/-- `TheseusLayer.stop_after(stop_layer_name)` from `model.py`, returning
the boolean result together with the (possibly partially) mutated root.
`if not layer_list:` covers both the `None` sentinel and an empty list. -/
def stop_after (root : Layer) (stopLayerName : String) : Except String (Bool × Layer) :=
  match parse_pattern_str stopLayerName root with
  | .error e => .error e
  | .ok none => .ok (false, root)
  | .ok (some steps) =>
    if steps.isEmpty then .ok (false, root) else stopAfterLoop root steps

/-- The assignment at the end of one `upgrade_sublayer` iteration:
`getattr(parent, name)[index] = new` when the recorded index is truthy
(`Sequential.__setitem__` is dict assignment on `_sub_layers`, appending
when the key is absent; on a non-sequence attribute it raises
`TypeError`), else `setattr(parent, name, new)`. -/
def applyReplace (p : Layer) (name : String) (idx : Option String) (v : Layer) :
    Except String Layer :=
  if pyTruthy idx then
    match p.getattr name with
    | none => .error "AttributeError"
    | some attr =>
      if attr.seq then
        .ok (Layer.mk p.tag p.seq
          (assocSet p.children name
            (Layer.mk attr.tag attr.seq (assocSet attr.children (idx.getD "") v))))
      else .error "TypeError"
  else .ok (Layer.mk p.tag p.seq (assocSet p.children name v))

/-- Walk to `layer_list[-2]["layer"]` (the parent of the final step; the
root itself for a single-step list) and perform the final assignment with
`handle_func(sub_layer, pattern)` applied to `layer_list[-1]`. -/
def applyAtLast (parent : Layer) (steps : List Step)
    (handle : Layer → String → Layer) (pattern : String) : Except String Layer :=
  match steps with
  | [] => .ok parent
  | [st] => applyReplace parent st.name st.index (handle st.layer pattern)
  | st :: rest =>
    match childAt parent st.name st.index with
    | none => .error "AttributeError"
    | some sub =>
      match applyAtLast sub rest handle pattern with
      | .error e => .error e
      | .ok sub2 => .ok (setAt parent st.name st.index sub2)

/-- One iteration of the `for pattern in layer_name_pattern:` loop of
`upgrade_sublayer`: `.ok none` models `continue` after a falsy
`layer_list`. -/
def upgradeOne (root : Layer) (pattern : String) (handle : Layer → String → Layer) :
    Except String (Option Layer) :=
  match parse_pattern_str pattern root with
  | .error e => .error e
  | .ok none => .ok none
  | .ok (some steps) =>
    if steps.isEmpty then .ok none
    else
      match applyAtLast root steps handle pattern with
      | .error e => .error e
      | .ok root2 => .ok (some root2)

/-- `TheseusLayer.upgrade_sublayer(layer_name_pattern, handle_func)` from
`model.py` over an already-listified pattern argument: returns the mutated
root and `hit_layer_pattern_list`, the successfully applied patterns in
input order. -/
def upgrade_sublayer (root : Layer) (patterns : List String)
    (handle : Layer → String → Layer) : Except String (Layer × List String) :=
  match patterns with
  | [] => .ok (root, [])
  | p :: rest =>
    match upgradeOne root p handle with
    | .error e => .error e
    | .ok none => upgrade_sublayer root rest handle
    | .ok (some root2) =>
      match upgrade_sublayer root2 rest handle with
      | .error e => .error e
      | .ok r => .ok (r.1, p :: r.2)

/-- Reading a layer back through a whole resolution-step list (observer
used to state the replacement theorems; not part of the source). -/
def getAtSteps : Layer → List Step → Option Layer
  | l, [] => some l
  | l, step :: rest =>
    match childAt l step.name step.index with
    | none => none
    | some c => getAtSteps c rest

section Hooks

variable {α : Type u}

/-- `save_sub_res_hook(layer, input, output)` from `model.py`:
`layer.res_dict[layer.res_name] = output` on the shared capture buffer. -/
def save_sub_res_hook (resDict : List (String × α)) (resName : String) (output : α) :
    List (String × α) :=
  assocSet resDict resName output

/-- `TheseusLayer._return_dict_hook(self, layer, input, output)` from
`model.py`: build `{"output": output}`, then move every entry of
`self.res_dict` into it (in buffer order, `pop` emptying the buffer).
Returns the result mapping and the emptied shared buffer. -/
def return_dict_hook (resDict : List (String × α)) (output : α) :
    List (String × α) × List (String × α) :=
  (resDict.foldl (fun acc kv => assocSet acc kv.1 kv.2) [("output", output)], [])

/-- Modelled from the spec: the host framework's forward-pass hook driver
is not part of this repository; per the spec each capture hook attached to
a chosen node fires when that node's forward finishes (recording into the
shared buffer via `save_sub_res_hook`), and the root-level post-hook
(`_return_dict_hook`) runs last.  A pass is therefore the fold of the
capture events over the buffer followed by the root hook. -/
def forward_pass (buffer : List (String × α)) (events : List (String × α)) (rootOut : α) :
    List (String × α) × List (String × α) :=
  return_dict_hook (events.foldl (fun b kv => save_sub_res_hook b kv.1 kv.2) buffer) rootOut

end Hooks

/-- Result of `pixel2style2pixel.style_transfer`: the Python method
returns bare `None` on the no-input branch and a list otherwise. -/
inductive StyleTransferOut (β : Type u) where
  | noResult : StyleTransferOut β
  | results : List β → StyleTransferOut β

/-- `pixel2style2pixel.style_transfer` from
`src/modules/image/Image_gan/gan/pixel2style2pixel/module.py`, with the
external framework calls abstracted: `flipBGR` is the channel reversal
`image[:, :, ::-1]`, `netRun` is `self.network.run`, `readImage` is
`cv2.imread`.  Device selection and the visualization file writes are
external side effects outside the returned value; the emitted log lines
are returned alongside the result. -/
def style_transfer {α β : Type} (flipBGR : α → α) (netRun : α → β)
    (readImage : String → α) (images : Option (List α)) (paths : Option (List String)) :
    List String × StyleTransferOut β :=
  if images.isNone && paths.isNone then
    (["No image provided. Please input an image or a image path."], .noResult)
  else
    let rs1 := (images.getD []).map (fun im => netRun (flipBGR im))
    let rs2 := (paths.getD []).map (fun p => netRun (flipBGR (readImage p)))
    ([], .results (rs1 ++ rs2))

/-- Count of `%s` conversion specifiers in a character list (the only
specifier occurring in the darknet53 error format string). -/
def countPercentS : List Char → Nat
  | '%' :: 's' :: rest => 1 + countPercentS rest
  | _ :: rest => countPercentS rest
  | [] => 0

/-- Substitute a string for the first `%s` specifier. -/
def substFirstPercentS : List Char → String → List Char
  | '%' :: 's' :: rest, arg => arg.toList ++ rest
  | c :: rest, arg => c :: substFirstPercentS rest arg
  | [], _ => []

/-- Python `fmt % arg` for a single (non-tuple) string argument and a
format string whose only specifiers are `%s`: with exactly one specifier
the argument is substituted; with zero or several specifiers CPython
raises `TypeError` ("not enough arguments for format string" /
"not all arguments converted"). -/
def pyPercentFormat (fmt : String) (arg : String) : Except String String :=
  if countPercentS fmt.toList == 1 then
    .ok (String.mk (substFirstPercentS fmt.toList arg))
  else .error "TypeError"

/-- The format string of the missing-file branch of `DarkNet53.run_cmd`
(`darknet53_imagenet/module.py`): it contains two `%s` placeholders. -/
def darknetMissingFileFmt : String := "File %s or %s is not exist."

/-- Outcome of the input-checking part of `DarkNet53.run_cmd`. -/
inductive RunCmdOutcome (γ : Type u) where
  | printHelpExit1 : RunCmdOutcome γ
  | raised : String → RunCmdOutcome γ
  | classified : γ → RunCmdOutcome γ

/-- The tail of `DarkNet53.run_cmd` after argument parsing: empty input
prints usage and exits with status 1; otherwise each path is checked for
existence in order and the first missing one triggers
`raise RuntimeError("File %s or %s is not exist." % image_path)` — whose
message construction itself is `pyPercentFormat` applied to the single
path string; when all paths exist, `self.classification` runs. -/
def run_cmd_input_check {γ : Type u} (fileExists : String → Bool)
    (classification : List String → γ) (inputData : List String) : RunCmdOutcome γ :=
  if inputData.isEmpty then .printHelpExit1
  else
    match inputData.find? (fun p => !fileExists p) with
    | some p =>
      match pyPercentFormat darknetMissingFileFmt p with
      | .error e => .raised e
      | .ok m => .raised ("RuntimeError: " ++ m)
    | none => .classified (classification inputData)

/-! ## Concrete layer graphs used by counterexamples and witnesses -/

/-- Replacing every entry of a sub-layer mapping by `Identity()` (the
observable effect of the replacement loops of `set_identity`). -/
def identify (l : List (String × Layer)) : List (String × Layer) :=
  l.map (fun kv => (kv.1, Identity))

/-- A childless plain layer with the given class tag. -/
def leafLayer (t : String) : Layer := .mk t false []

/-- A `nn.Sequential` container with the given sub-layers (the keys of a
`Sequential(*layers)` are the decimal strings of the positions). -/
def seqLayer (cs : List (String × Layer)) : Layer := .mk "Sequential" true cs

/-- The element-2 block of the sample graph, owning `dw_1` and `se`. -/
def sampleBlock2 : Layer :=
  .mk "ESBlock1" false [("dw_1", leafLayer "ConvBNLayer"), ("se", leafLayer "SEModule")]

/-- The `blocks` sequence of the sample graph. -/
def sampleBlocks : Layer :=
  seqLayer [("0", leafLayer "ESBlock2"), ("1", leafLayer "ESBlock1"), ("2", sampleBlock2)]

/-- A small ESNet-like root: a `blocks` sequence of three blocks whose
element 2 has sub-layers `dw_1` and `se`, next to a `conv1` layer. -/
def sampleRoot : Layer :=
  .mk "ESNet" false
    [("conv1", .mk "ConvBNLayer" false [("conv", leafLayer "Conv2D"), ("bn", leafLayer "BatchNorm")]),
     ("blocks", sampleBlocks)]

/-- A root whose `blocks` attribute is an *empty* `Sequential` — empty
containers are falsy in Python, which disables the index bounds check of
`parse_pattern_str`. -/
def emptySeqRoot : Layer := .mk "Root" false [("blocks", seqLayer [])]

/-- A root for the non-transactional-truncation scenario: resolving
`a.b[0]` succeeds (the empty sequence `b` bypasses the index check), the
first `set_identity` level mutates, and the second level fails. -/
def noRollbackRoot : Layer :=
  .mk "Root" false
    [("a", .mk "A" false [("b", seqLayer []), ("c", leafLayer "C")]), ("d", leafLayer "D")]

/-- A parent owning a named sequence of five children (truncation-ordering
scenario of the spec). -/
def fiveRoot : Layer :=
  .mk "P" false
    [("blocks", seqLayer
      [("0", leafLayer "L0"), ("1", leafLayer "L1"), ("2", leafLayer "L2"),
       ("3", leafLayer "L3"), ("4", leafLayer "L4")])]

/-! ## Helper lemmas -/

theorem identify_identify (l : List (String × Layer)) : identify (identify l) = identify l := by
  simp [identify]

theorem identify_length (l : List (String × Layer)) : (identify l).length = l.length := by
  simp [identify]

theorem lookupChild_append_none {α : Type u} {pre : List (String × α)} {nm : String}
    (h : lookupChild pre nm = none) (l : List (String × α)) :
    lookupChild (pre ++ l) nm = lookupChild l nm := by
  induction pre with
  | nil => rfl
  | cons kv rest ih =>
    obtain ⟨k1, v1⟩ := kv
    simp only [lookupChild] at h
    by_cases hk : (k1 == nm) = true
    · rw [if_pos hk] at h; cases h
    · rw [if_neg hk] at h
      simp [lookupChild, hk, ih h]

theorem lookupChild_cons_self {α : Type u} (nm : String) (c : α) (post : List (String × α)) :
    lookupChild ((nm, c) :: post) nm = some c := by
  simp [lookupChild]

theorem lookup_decomp {ch : List (String × Layer)} {nm : String} {c : Layer}
    (h : lookupChild ch nm = some c) :
    ∃ pre post, ch = pre ++ (nm, c) :: post ∧ lookupChild pre nm = none := by
  induction ch with
  | nil => simp [lookupChild] at h
  | cons kv rest ih =>
    obtain ⟨k1, v1⟩ := kv
    simp only [lookupChild] at h
    by_cases hk : (k1 == nm) = true
    · rw [if_pos hk] at h
      obtain rfl : v1 = c := by cases h; rfl
      have hk2 : k1 = nm := by simpa using hk
      subst hk2
      exact ⟨[], rest, rfl, rfl⟩
    · rw [if_neg hk] at h
      obtain ⟨pre, post, hdec, hpre⟩ := ih h
      exact ⟨(k1, v1) :: pre, post, by rw [hdec, List.cons_append],
        by simp [lookupChild, hk, hpre]⟩

theorem assocSet_decomp {pre : List (String × Layer)} {k : String}
    (hpre : lookupChild pre k = none) (c v : Layer) (post : List (String × Layer)) :
    assocSet (pre ++ (k, c) :: post) k v = pre ++ (k, v) :: post := by
  induction pre with
  | nil => simp [assocSet]
  | cons kv rest ih =>
    obtain ⟨k1, v1⟩ := kv
    simp only [lookupChild] at hpre
    by_cases hk : (k1 == k) = true
    · rw [if_pos hk] at hpre; cases hpre
    · rw [if_neg hk] at hpre
      simp [assocSet, hk, ih hpre]

theorem pass1_true (l : List (String × Layer)) (nm : String) :
    setIdentityPass1 l nm true = (true, identify l) := by
  induction l with
  | nil => rfl
  | cons kv rest ih =>
    obtain ⟨k1, v1⟩ := kv
    simp [setIdentityPass1, ih, identify]

theorem pass1_no_match {l : List (String × Layer)} {nm : String}
    (h : lookupChild l nm = none) : setIdentityPass1 l nm false = (false, l) := by
  induction l with
  | nil => rfl
  | cons kv rest ih =>
    obtain ⟨k1, v1⟩ := kv
    simp only [lookupChild] at h
    by_cases hk : (k1 == nm) = true
    · rw [if_pos hk] at h; cases h
    · rw [if_neg hk] at h
      simp [setIdentityPass1, hk, ih h]

theorem pass1_decomp {pre : List (String × Layer)} {nm : String}
    (hpre : lookupChild pre nm = none) (c : Layer) (post : List (String × Layer)) :
    setIdentityPass1 (pre ++ (nm, c) :: post) nm false =
      (true, pre ++ (nm, c) :: identify post) := by
  induction pre with
  | nil => simp [setIdentityPass1, pass1_true]
  | cons kv rest ih =>
    obtain ⟨k1, v1⟩ := kv
    simp only [lookupChild] at hpre
    by_cases hk : (k1 == nm) = true
    · rw [if_pos hk] at hpre; cases hpre
    · rw [if_neg hk] at hpre
      simp [setIdentityPass1, hk, ih hpre]

theorem pass2_true_seq (l : List (String × Layer)) (k : String) :
    setIdentityPass2 l k true true = .ok (true, identify l) := by
  induction l with
  | nil => rfl
  | cons kv rest ih =>
    obtain ⟨k1, v1⟩ := kv
    simp [setIdentityPass2, ih, identify]

theorem pass2_no_match {l : List (String × Layer)} {k : String}
    (h : lookupChild l k = none) (isSeq : Bool) :
    setIdentityPass2 l k false isSeq = .ok (false, l) := by
  induction l with
  | nil => rfl
  | cons kv rest ih =>
    obtain ⟨k1, v1⟩ := kv
    simp only [lookupChild] at h
    by_cases hk : (k1 == k) = true
    · rw [if_pos hk] at h; cases h
    · rw [if_neg hk] at h
      simp [setIdentityPass2, hk, ih h]

theorem pass2_decomp {ipre : List (String × Layer)} {k : String}
    (hpre : lookupChild ipre k = none) (c : Layer) (ipost : List (String × Layer)) :
    setIdentityPass2 (ipre ++ (k, c) :: ipost) k false true =
      .ok (true, ipre ++ (k, c) :: identify ipost) := by
  induction ipre with
  | nil => simp [setIdentityPass2, pass2_true_seq]
  | cons kv rest ih =>
    obtain ⟨k1, v1⟩ := kv
    simp only [lookupChild] at hpre
    by_cases hk : (k1 == k) = true
    · rw [if_pos hk] at hpre; cases hpre
    · rw [if_neg hk] at hpre
      simp [setIdentityPass2, hk, ih hpre]

theorem getattr_decomp {l : Layer} {pre post : List (String × Layer)} {nm : String} {c : Layer}
    (hch : l.children = pre ++ (nm, c) :: post) (hpre : lookupChild pre nm = none) :
    l.getattr nm = some c := by
  rw [Layer.getattr, hch, lookupChild_append_none hpre, lookupChild_cons_self]

/-- `set_identity` with a falsy index: the matched entry and everything
before it are untouched, every later sibling becomes `Identity`, and the
call reports success. -/
theorem set_identity_noidx {parent : Layer} {pre post : List (String × Layer)}
    {nm : String} {c : Layer} (hch : parent.children = pre ++ (nm, c) :: post)
    (hpre : lookupChild pre nm = none) {ix : Option String} (hix : pyTruthy ix = false) :
    set_identity parent nm ix =
      .ok (true, Layer.mk parent.tag parent.seq (pre ++ (nm, c) :: identify post)) := by
  rw [set_identity, hch, pass1_decomp hpre, hix]
  simp

/-- `set_identity` with a truthy index whose key occurs in the matched
child's own sub-layers (the child being a sequence container): later
siblings of the match become `Identity` at both levels; entries up to and
including each match are untouched; the call reports success. -/
theorem set_identity_idx {parent : Layer} {pre post : List (String × Layer)}
    {nm : String} {c : Layer} (hch : parent.children = pre ++ (nm, c) :: post)
    (hpre : lookupChild pre nm = none) {s : String} (hs : pyTruthy (some s) = true)
    {ipre ipost : List (String × Layer)} {ic : Layer}
    (hich : c.children = ipre ++ (s, ic) :: ipost) (hipre : lookupChild ipre s = none)
    (hseq : c.seq = true) :
    set_identity parent nm (some s) =
      .ok (true, Layer.mk parent.tag parent.seq
        (pre ++ (nm, Layer.mk c.tag c.seq (ipre ++ (s, ic) :: identify ipost)) :: identify post)) := by
  have h1 : lookupChild (pre ++ (nm, c) :: identify post) nm = some c := by
    rw [lookupChild_append_none hpre, lookupChild_cons_self]
  simp [set_identity, hch, pass1_decomp hpre, hs, h1, hich, hseq,
    pass2_decomp hipre, assocSet_decomp hpre]

/-- `set_identity` with a truthy index that matches no key of the child's
sub-layers (in particular an empty sequence): the first loop has already
replaced the siblings after the match; the second loop finds nothing and
the call reports failure. -/
theorem set_identity_idx_nomatch {parent : Layer} {pre post : List (String × Layer)}
    {nm : String} {c : Layer} (hch : parent.children = pre ++ (nm, c) :: post)
    (hpre : lookupChild pre nm = none) {s : String} (hs : pyTruthy (some s) = true)
    (hnone : lookupChild c.children s = none) :
    set_identity parent nm (some s) =
      .ok (false, Layer.mk parent.tag parent.seq
        (pre ++ (nm, Layer.mk c.tag c.seq c.children) :: identify post)) := by
  have h1 : lookupChild (pre ++ (nm, c) :: identify post) nm = some c := by
    rw [lookupChild_append_none hpre, lookupChild_cons_self]
  simp [set_identity, hch, pass1_decomp hpre, hs, h1, pass2_no_match hnone,
    assocSet_decomp hpre]

/-- Walking a bracket-free segment list can only return `.ok`: without a
truthy index no `int()`, `len()` or `__getitem__` call is reached. -/
theorem parseLoop_total_without_brackets :
    ∀ (segs : List String) (parent : Layer),
    (∀ seg ∈ segs, pyContains '[' seg = false) →
    ∃ r, parseLoop segs parent = .ok r := by
  intro segs
  induction segs with
  | nil => exact fun parent _ => ⟨some [], rfl⟩
  | cons seg rest ih =>
    intro parent hbr
    have hseg : parseSegment seg = (seg, none) := by
      rw [parseSegment, hbr seg (by simp)]
      simp
    rw [parseLoop, hseg]
    cases hget : parent.getattr seg with
    | none => exact ⟨none, by simp⟩
    | some tl =>
      obtain ⟨r, hr⟩ := ih tl (fun s hs => hbr s (by simp [hs]))
      simp only [pyTruthy, Bool.false_and, if_neg (by simp : ¬(false = true))]
      cases r with
      | none => exact ⟨none, by rw [hr]⟩
      | some steps => exact ⟨some (⟨tl, seg, none⟩ :: steps), by rw [hr]⟩

theorem keys_assocSet {α : Type u} (l : List (String × α)) (k : String) (v : α) :
    ∀ k2 ∈ (assocSet l k v).map Prod.fst, k2 = k ∨ k2 ∈ l.map Prod.fst := by
  induction l with
  | nil => intro k2 hk2; simp [assocSet] at hk2; exact Or.inl hk2
  | cons kv rest ih =>
    obtain ⟨k1, v1⟩ := kv
    intro k2 hk2
    simp only [assocSet] at hk2
    by_cases hk : (k1 == k) = true
    · rw [if_pos hk] at hk2
      simp at hk2
      rcases hk2 with h | h
      · exact Or.inr (by simp [h])
      · exact Or.inr (by simp [h])
    · rw [if_neg hk] at hk2
      simp at hk2
      rcases hk2 with h | h
      · exact Or.inr (by simp [h])
      · rcases ih k2 (by simpa using h) with h2 | h2
        · exact Or.inl h2
        · exact Or.inr (by simp; exact Or.inr (by simpa using h2))

theorem keys_foldl_assocSet {α : Type u} :
    ∀ (l init : List (String × α)),
    ∀ k2 ∈ ((l.foldl (fun b kv => assocSet b kv.1 kv.2) init).map Prod.fst),
    k2 ∈ init.map Prod.fst ∨ k2 ∈ l.map Prod.fst := by
  intro l
  induction l with
  | nil => intro init k2 hk2; exact Or.inl hk2
  | cons kv rest ih =>
    intro init k2 hk2
    simp only [List.foldl_cons] at hk2
    rcases ih (assocSet init kv.1 kv.2) k2 hk2 with h | h
    · rcases keys_assocSet init kv.1 kv.2 k2 h with h2 | h2
      · exact Or.inr (by simp [h2])
      · exact Or.inl h2
    · exact Or.inr (by rw [List.map_cons]; exact List.mem_cons_of_mem _ h)

theorem find?_some_ne_nil {α : Type u} {l : List α} {p : α → Bool} {a : α}
    (h : l.find? p = some a) : l.isEmpty = false := by
  cases l with
  | nil => cases h
  | cons x xs => rfl

theorem lookup_assocSet_self {α : Type u} :
    ∀ (l : List (String × α)) (k : String) (v : α), lookupChild (assocSet l k v) k = some v := by
  intro l k v
  induction l with
  | nil => simp [assocSet, lookupChild]
  | cons kv rest ih =>
    obtain ⟨k1, v1⟩ := kv
    by_cases hk : (k1 == k) = true
    · simp [assocSet, hk, lookupChild, by simpa using hk]
    · simp only [assocSet, if_neg hk, lookupChild]
      exact ih

theorem assocSet_isEmpty {α : Type u} :
    ∀ (l : List (String × α)) (k : String) (v : α), (assocSet l k v).isEmpty = false := by
  intro l k v
  cases l with
  | nil => rfl
  | cons kv rest =>
    obtain ⟨k1, v1⟩ := kv
    by_cases hk : (k1 == k) = true
    · simp [assocSet, hk]
    · simp [assocSet, hk]

theorem pyTruthyLayer_false_elim {tl : Layer} (h : pyTruthyLayer tl = false) :
    tl.seq = true ∧ tl.children = [] := by
  rw [pyTruthyLayer] at h
  by_cases hseq : tl.seq = true
  · rw [if_pos hseq] at h
    refine ⟨hseq, ?_⟩
    cases hch : tl.children with
    | nil => rfl
    | cons kv rest => rw [hch] at h; simp at h
  · rw [if_neg hseq] at h
    cases h

/-- Inversion of one successful step of the `parse_pattern_str` walk. -/
theorem parseLoop_cons_inversion {seg : String} {rest : List String} {parent : Layer}
    {steps : List Step} (hp : parseLoop (seg :: rest) parent = .ok (some steps)) :
    ∃ tl steps2, parent.getattr (parseSegment seg).1 = some tl ∧
      (((pyTruthy (parseSegment seg).2 && pyTruthyLayer tl) = false ∧
         parseLoop rest tl = .ok (some steps2) ∧
         steps = ⟨tl, (parseSegment seg).1, (parseSegment seg).2⟩ :: steps2) ∨
       ((pyTruthy (parseSegment seg).2 && pyTruthyLayer tl) = true ∧
        ∃ i tl2, pyIntOfString ((parseSegment seg).2.getD "") = some i ∧
          ¬(i < 0) ∧ tl.seq = true ∧ ¬((tl.children.length : Int) ≤ i) ∧
          tl.getitem ((parseSegment seg).2.getD "") = some tl2 ∧
          parseLoop rest tl2 = .ok (some steps2) ∧
          steps = ⟨tl2, (parseSegment seg).1, (parseSegment seg).2⟩ :: steps2)) := by
  rw [parseLoop] at hp
  split at hp
  · simp at hp
  next tl hget =>
    refine ⟨tl, ?_⟩
    split at hp
    next hguard =>
      split at hp
      next hint => simp at hp
      next i hint =>
        split at hp
        next hneg => simp at hp
        next hneg =>
          split at hp
          next hseqf => simp at hp
          next hseqf =>
            have hseq : tl.seq = true := by
              cases hseqv : tl.seq
              · exact absurd (by rw [hseqv]; rfl) hseqf
              · rfl
            split at hp
            next hlen => simp at hp
            next hlen =>
              split at hp
              next hitem => simp at hp
              next tl2 hitem =>
                split at hp
                next e hrec => simp at hp
                next hrec => simp at hp
                next steps2 hrec =>
                  refine ⟨steps2, hget,
                    Or.inr ⟨hguard, i, tl2, hint, hneg, hseq, hlen, hitem, hrec, ?_⟩⟩
                  cases hp; rfl
    next hguard =>
      split at hp
      next e hrec => simp at hp
      next hrec => simp at hp
      next steps2 hrec =>
        refine ⟨steps2, hget, Or.inl ⟨by simpa using hguard, hrec, ?_⟩⟩
        cases hp; rfl

/-- A successful `parseLoop` over a non-empty segment list produces a
non-empty step list; over an empty-children layer with at least one
segment it cannot succeed. -/
theorem parseLoop_nil_children {seg : String} {rest : List String} {tl : Layer}
    (hch : tl.children = []) {steps : List Step} :
    parseLoop (seg :: rest) tl ≠ .ok (some steps) := by
  intro hp
  obtain ⟨tl2, steps2, hget, _⟩ := parseLoop_cons_inversion hp
  rw [Layer.getattr, hch] at hget
  cases hget

theorem parseLoop_some_nil {segs : List String} {parent : Layer}
    (hp : parseLoop segs parent = .ok (some [])) : segs = [] := by
  cases segs with
  | nil => rfl
  | cons seg rest =>
    obtain ⟨tl, steps2, hget, hcase⟩ := parseLoop_cons_inversion hp
    rcases hcase with ⟨_, _, hsteps⟩ | ⟨_, _, _, _, _, _, _, _, _, hsteps⟩ <;> cases hsteps

/-- Unfolding one step of the observer `getAtSteps`. -/
theorem getAtSteps_cons {l c : Layer} {st : Step} (rest : List Step)
    (hc : childAt l st.name st.index = some c) :
    getAtSteps l (st :: rest) = getAtSteps c rest := by
  rw [getAtSteps, hc]

/-- After a successful resolution, the final assignment of
`upgrade_sublayer` succeeds and stores the transformed node at the
resolved address: re-reading the graph through the same resolution steps
yields `handle_func(target, pattern)`. -/
theorem applyAtLast_get :
    ∀ (segs : List String) (parent : Layer) (steps : List Step),
    parseLoop segs parent = .ok (some steps) → steps ≠ [] →
    ∀ (h : Layer → String → Layer) (pat : String),
    ∃ parent2, applyAtLast parent steps h pat = .ok parent2 ∧
      ∃ ll, steps.getLast? = some ll ∧ getAtSteps parent2 steps = some (h ll.layer pat) := by
  intro segs
  induction segs with
  | nil =>
    intro parent steps hp hne h pat
    rw [parseLoop] at hp
    cases hp
    exact absurd rfl hne
  | cons seg rest ih =>
    intro parent steps hp hne h pat
    obtain ⟨tl, steps2, hget, hcase⟩ := parseLoop_cons_inversion hp
    rcases hcase with ⟨hguard, hrec, hsteps⟩ |
      ⟨hguard, i, tl2, hint, hneg, hseq, hlen, hitem, hrec, hsteps⟩
    · -- guard false: the step records the attribute itself
      subst hsteps
      cases steps2 with
      | nil =>
        cases hx : pyTruthy (parseSegment seg).2 with
        | false =>
          refine ⟨Layer.mk parent.tag parent.seq
            (assocSet parent.children (parseSegment seg).1 (h tl pat)), ?_, ?_⟩
          · simp [applyAtLast, applyReplace, hx]
          · refine ⟨⟨tl, (parseSegment seg).1, (parseSegment seg).2⟩, rfl, ?_⟩
            have hc : childAt (Layer.mk parent.tag parent.seq
                (assocSet parent.children (parseSegment seg).1 (h tl pat)))
                (parseSegment seg).1 (parseSegment seg).2 = some (h tl pat) := by
              simp [childAt, Layer.getattr, Layer.children, lookup_assocSet_self, hx]
            rw [getAtSteps_cons [] hc]; rfl
        | true =>
          have ht : pyTruthyLayer tl = false := by
            rw [hx] at hguard; simpa using hguard
          obtain ⟨hseq, hch⟩ := pyTruthyLayer_false_elim ht
          refine ⟨Layer.mk parent.tag parent.seq
            (assocSet parent.children (parseSegment seg).1
              (Layer.mk tl.tag tl.seq
                (assocSet tl.children ((parseSegment seg).2.getD "") (h tl pat)))), ?_, ?_⟩
          · simp [applyAtLast, applyReplace, hx, hget, hseq]
          · refine ⟨⟨tl, (parseSegment seg).1, (parseSegment seg).2⟩, rfl, ?_⟩
            have hc : childAt (Layer.mk parent.tag parent.seq
                (assocSet parent.children (parseSegment seg).1
                  (Layer.mk tl.tag tl.seq
                    (assocSet tl.children ((parseSegment seg).2.getD "") (h tl pat)))))
                (parseSegment seg).1 (parseSegment seg).2 = some (h tl pat) := by
              simp [childAt, Layer.getattr, Layer.children, Layer.getitem, Layer.seq,
                lookup_assocSet_self, hx, pyTruthyLayer, hseq, assocSet_isEmpty]
            rw [getAtSteps_cons [] hc]; rfl
      | cons s2 ss =>
        cases hrest : rest with
        | nil =>
          rw [hrest, parseLoop] at hrec
          cases hrec
        | cons r2 rs =>
          cases hx : pyTruthy (parseSegment seg).2 with
          | true =>
            have ht : pyTruthyLayer tl = false := by
              rw [hx] at hguard; simpa using hguard
            obtain ⟨_, hch⟩ := pyTruthyLayer_false_elim ht
            rw [hrest] at hrec
            exact absurd hrec (parseLoop_nil_children hch)
          | false =>
            obtain ⟨sub2, happ, ll, hlast, hgets⟩ :=
              ih tl (s2 :: ss) hrec (by simp) h pat
            have hchild : childAt parent (parseSegment seg).1 (parseSegment seg).2 =
                some tl := by
              simp [childAt, hget, hx]
            refine ⟨setAt parent (parseSegment seg).1 (parseSegment seg).2 sub2, ?_, ?_⟩
            · simp only [applyAtLast, hchild, happ]
            · refine ⟨ll, by rw [List.getLast?_cons_cons]; exact hlast, ?_⟩
              have hset : setAt parent (parseSegment seg).1 (parseSegment seg).2 sub2 =
                  Layer.mk parent.tag parent.seq
                    (assocSet parent.children (parseSegment seg).1 sub2) := by
                simp [setAt, hget, hx]
              have hc2 : childAt (Layer.mk parent.tag parent.seq
                  (assocSet parent.children (parseSegment seg).1 sub2))
                  (parseSegment seg).1 (parseSegment seg).2 = some sub2 := by
                simp [childAt, Layer.getattr, Layer.children, lookup_assocSet_self, hx]
              rw [hset, getAtSteps_cons (s2 :: ss) hc2]
              exact hgets
    · -- guard true: the step records the indexed element
      subst hsteps
      have hand : pyTruthy (parseSegment seg).2 = true ∧ pyTruthyLayer tl = true := by
        simpa using hguard
      cases steps2 with
      | nil =>
        refine ⟨Layer.mk parent.tag parent.seq
          (assocSet parent.children (parseSegment seg).1
            (Layer.mk tl.tag tl.seq
              (assocSet tl.children ((parseSegment seg).2.getD "") (h tl2 pat)))), ?_, ?_⟩
        · simp [applyAtLast, applyReplace, hand.1, hget, hseq]
        · refine ⟨⟨tl2, (parseSegment seg).1, (parseSegment seg).2⟩, rfl, ?_⟩
          have hc : childAt (Layer.mk parent.tag parent.seq
              (assocSet parent.children (parseSegment seg).1
                (Layer.mk tl.tag tl.seq
                  (assocSet tl.children ((parseSegment seg).2.getD "") (h tl2 pat)))))
              (parseSegment seg).1 (parseSegment seg).2 = some (h tl2 pat) := by
            simp [childAt, Layer.getattr, Layer.children, Layer.getitem, Layer.seq,
              lookup_assocSet_self, hand.1, pyTruthyLayer, hseq, assocSet_isEmpty]
          rw [getAtSteps_cons [] hc]; rfl
      | cons s2 ss =>
        cases hrest : rest with
        | nil =>
          rw [hrest, parseLoop] at hrec
          cases hrec
        | cons r2 rs =>
          obtain ⟨sub2, happ, ll, hlast, hgets⟩ :=
            ih tl2 (s2 :: ss) hrec (by simp) h pat
          have hchild : childAt parent (parseSegment seg).1 (parseSegment seg).2 =
              some tl2 := by
            simp [childAt, hget, hand.1, hand.2, hitem]
          refine ⟨setAt parent (parseSegment seg).1 (parseSegment seg).2 sub2, ?_, ?_⟩
          · simp only [applyAtLast, hchild, happ]
          · refine ⟨ll, by rw [List.getLast?_cons_cons]; exact hlast, ?_⟩
            have hset : setAt parent (parseSegment seg).1 (parseSegment seg).2 sub2 =
                Layer.mk parent.tag parent.seq
                  (assocSet parent.children (parseSegment seg).1
                    (Layer.mk tl.tag tl.seq
                      (assocSet tl.children ((parseSegment seg).2.getD "") sub2))) := by
              simp [setAt, hget, hand.1, hand.2]
            have hc2 : childAt (Layer.mk parent.tag parent.seq
                (assocSet parent.children (parseSegment seg).1
                  (Layer.mk tl.tag tl.seq
                    (assocSet tl.children ((parseSegment seg).2.getD "") sub2))))
                (parseSegment seg).1 (parseSegment seg).2 = some sub2 := by
              simp [childAt, Layer.getattr, Layer.children, Layer.getitem, Layer.seq,
                lookup_assocSet_self, hand.1, pyTruthyLayer, hseq, assocSet_isEmpty]
            rw [hset, getAtSteps_cons (s2 :: ss) hc2]
            exact hgets

theorem getitem_decomp {l : Layer} {ipre ipost : List (String × Layer)} {s : String}
    {v : Layer} (hch : l.children = ipre ++ (s, v) :: ipost)
    (hipre : lookupChild ipre s = none) : l.getitem s = some v := by
  rw [Layer.getitem, hch, lookupChild_append_none hipre, lookupChild_cons_self]

theorem pyTruthyLayer_mk_nonempty (t : String) (sq : Bool) (a b : List (String × Layer))
    (k : String) (v : Layer) :
    pyTruthyLayer (Layer.mk t sq (a ++ (k, v) :: b)) = true := by
  rw [pyTruthyLayer]
  cases sq <;> cases a <;> simp [Layer.seq, Layer.children]

/-- Computing one step of the `parse_pattern_str` walk when the index
guard is falsy. -/
theorem parseLoop_cons_eq_guardfalse {seg : String} {rest : List String} {parent tl : Layer}
    {nm : String} {ix : Option String} {steps1 : List Step}
    (hps : parseSegment seg = (nm, ix)) (hget : parent.getattr nm = some tl)
    (hguard : (pyTruthy ix && pyTruthyLayer tl) = false)
    (hrec : parseLoop rest tl = .ok (some steps1)) :
    parseLoop (seg :: rest) parent = .ok (some (⟨tl, nm, ix⟩ :: steps1)) := by
  simp [parseLoop, hps, hget, hguard, hrec]

/-- Computing one step of the `parse_pattern_str` walk when the index
guard holds and all checks pass. -/
theorem parseLoop_cons_eq_guardtrue {seg : String} {rest : List String}
    {parent tl tl2 : Layer} {nm s : String} {steps1 : List Step} {i : Int}
    (hps : parseSegment seg = (nm, some s)) (hget : parent.getattr nm = some tl)
    (hguard : (pyTruthy (some s) && pyTruthyLayer tl) = true)
    (hint : pyIntOfString s = some i) (hneg : ¬(i < 0)) (hseq : tl.seq = true)
    (hlen : ¬((tl.children.length : Int) ≤ i))
    (hitem : tl.getitem s = some tl2)
    (hrec : parseLoop rest tl2 = .ok (some steps1)) :
    parseLoop (seg :: rest) parent = .ok (some (⟨tl2, nm, some s⟩ :: steps1)) := by
  simp [parseLoop, hps, hget, hguard, hint, hneg, hseq, hlen, hitem, hrec]

/-- Computing one level of the `stop_after` loop. -/
theorem stopAfterLoop_cons_eq {parent p1 sub sub2 : Layer} {nm : String}
    {ix : Option String} {steps : List Step} {b : Bool} (la : Layer)
    (hsi : set_identity parent nm ix = .ok (true, p1))
    (hc : childAt p1 nm ix = some sub)
    (hrec : stopAfterLoop sub steps = .ok (b, sub2)) :
    stopAfterLoop parent (⟨la, nm, ix⟩ :: steps) = .ok (b, setAt p1 nm ix sub2) := by
  simp [stopAfterLoop, hsi, hc, hrec]

/-- Inverting one successful level of the `stop_after` loop. -/
theorem stopAfterLoop_cons_true_inversion {parent r la : Layer} {nm : String}
    {ix : Option String} {steps : List Step}
    (hl : stopAfterLoop parent (⟨la, nm, ix⟩ :: steps) = .ok (true, r)) :
    ∃ p1 sub sub2, set_identity parent nm ix = .ok (true, p1) ∧
      childAt p1 nm ix = some sub ∧ stopAfterLoop sub steps = .ok (true, sub2) ∧
      r = setAt p1 nm ix sub2 := by
  rw [stopAfterLoop] at hl
  split at hl
  next e hsi => simp at hl
  next r0 hsi =>
    obtain ⟨b0, p1⟩ := r0
    cases b0 with
    | false => simp at hl
    | true =>
      split at hl
      · split at hl
        next hc => simp at hl
        next sub hc =>
          split at hl
          next e hrec => simp at hl
          next r2 hrec =>
            obtain ⟨b2, sub2⟩ := r2
            have h2 : b2 = true ∧ setAt p1 nm ix sub2 = r := by simpa using hl
            rw [h2.1] at hrec
            exact ⟨p1, sub, sub2, hsi, hc, hrec, h2.2.symm⟩
      · next hcond => exact (hcond (by simp)).elim

/-- Core of the truncation-idempotence argument: when the truncation loop
succeeds, re-resolving the same segments against the mutated graph
succeeds again, and re-running the loop leaves the graph unchanged (the
siblings after each match are already `Identity`). -/
theorem stopAfterLoop_idem :
    ∀ (segs : List String) (parent : Layer) (steps : List Step) (r : Layer),
    parseLoop segs parent = .ok (some steps) →
    stopAfterLoop parent steps = .ok (true, r) →
    ∃ steps2, parseLoop segs r = .ok (some steps2) ∧
      stopAfterLoop r steps2 = .ok (true, r) := by
  intro segs
  induction segs with
  | nil =>
    intro parent steps r hp hl
    rw [parseLoop] at hp
    cases hp
    rw [stopAfterLoop] at hl
    cases hl
    exact ⟨[], rfl, rfl⟩
  | cons seg rest ih =>
    intro parent steps r hp hl
    obtain ⟨tl, steps1, hget, hcase⟩ := parseLoop_cons_inversion hp
    cases hps : parseSegment seg with
    | mk nm ix =>
    simp only [hps] at hget hcase
    obtain ⟨pre, post, hch, hpre⟩ :=
      lookup_decomp (show lookupChild parent.children nm = some tl from hget)
    rcases hcase with ⟨hguard, hrec, hsteps⟩ |
      ⟨hguard, i, tl2, hint, hneg, hseq, hlen, hitem, hrec, hsteps⟩
    · -- guard false: the step records the attribute itself
      subst hsteps
      cases hx : pyTruthy ix with
      | true =>
        -- the attribute is falsy: level fails, contradicting loop success
        have ht : pyTruthyLayer tl = false := by rw [hx] at hguard; simpa using hguard
        obtain ⟨htseq, htch⟩ := pyTruthyLayer_false_elim ht
        cases ix with
        | none => rw [pyTruthy] at hx; cases hx
        | some s =>
          have hnone : lookupChild tl.children s = none := by rw [htch]; rfl
          have hsi := set_identity_idx_nomatch hch hpre hx hnone
          obtain ⟨p1, sub, sub2, hsi2, _, _, _⟩ := stopAfterLoop_cons_true_inversion hl
          rw [hsi] at hsi2
          simp at hsi2
      | false =>
        have hsi := set_identity_noidx hch hpre hx
        obtain ⟨p1, sub, sub2, hsi2, hc2, hl2, hr⟩ := stopAfterLoop_cons_true_inversion hl
        rw [hsi] at hsi2
        have hp1 : p1 = Layer.mk parent.tag parent.seq
            (pre ++ (nm, tl) :: identify post) := by simpa using hsi2.symm
        subst hp1
        have hgetp1 : (Layer.mk parent.tag parent.seq
            (pre ++ (nm, tl) :: identify post)).getattr nm = some tl :=
          getattr_decomp rfl hpre
        have hcx : childAt (Layer.mk parent.tag parent.seq
            (pre ++ (nm, tl) :: identify post)) nm ix = some tl := by
          simp [childAt, hgetp1, hx]
        rw [hcx] at hc2
        obtain rfl : tl = sub := by cases hc2; rfl
        obtain ⟨steps2', hrec2, hloop2⟩ := ih tl steps1 sub2 hrec hl2
        have hsetAt : setAt (Layer.mk parent.tag parent.seq
            (pre ++ (nm, tl) :: identify post)) nm ix sub2 =
            Layer.mk parent.tag parent.seq (pre ++ (nm, sub2) :: identify post) := by
          simp [setAt, hgetp1, hx, assocSet_decomp hpre]
        rw [hsetAt] at hr
        subst hr
        have hget2 : (Layer.mk parent.tag parent.seq
            (pre ++ (nm, sub2) :: identify post)).getattr nm = some sub2 :=
          getattr_decomp rfl hpre
        refine ⟨⟨sub2, nm, ix⟩ :: steps2', ?_, ?_⟩
        · exact parseLoop_cons_eq_guardfalse hps hget2 (by rw [hx]; rfl) hrec2
        · have hsi3 : set_identity (Layer.mk parent.tag parent.seq
              (pre ++ (nm, sub2) :: identify post)) nm ix =
              .ok (true, Layer.mk parent.tag parent.seq
                (pre ++ (nm, sub2) :: identify post)) := by
            have h0 := set_identity_noidx (show (Layer.mk parent.tag parent.seq
              (pre ++ (nm, sub2) :: identify post)).children =
                pre ++ (nm, sub2) :: identify post from rfl) hpre hx
            rw [identify_identify] at h0
            simpa using h0
          have hc3 : childAt (Layer.mk parent.tag parent.seq
              (pre ++ (nm, sub2) :: identify post)) nm ix = some sub2 := by
            simp [childAt, hget2, hx]
          have hres := stopAfterLoop_cons_eq sub2 hsi3 hc3 hloop2
          have hset2 : setAt (Layer.mk parent.tag parent.seq
              (pre ++ (nm, sub2) :: identify post)) nm ix sub2 =
              Layer.mk parent.tag parent.seq (pre ++ (nm, sub2) :: identify post) := by
            simp [setAt, hget2, hx, assocSet_decomp hpre]
          rw [hset2] at hres
          exact hres
    · -- guard true: the step records the indexed element
      subst hsteps
      have hand : pyTruthy ix = true ∧ pyTruthyLayer tl = true := by simpa using hguard
      cases ix with
      | none => exact absurd hand.1 (by rw [pyTruthy]; simp)
      | some s =>
        have hs : pyTruthy (some s) = true := hand.1
        simp only [Option.getD_some] at hint hitem
        obtain ⟨ipre, ipost, hich, hipre⟩ :=
          lookup_decomp (show lookupChild tl.children s = some tl2 from hitem)
        have hsi := set_identity_idx hch hpre hs hich hipre hseq
        obtain ⟨p1, sub, sub2, hsi2, hc2, hl2, hr⟩ := stopAfterLoop_cons_true_inversion hl
        rw [hsi] at hsi2
        have hp1 : p1 = Layer.mk parent.tag parent.seq
            (pre ++ (nm, Layer.mk tl.tag tl.seq (ipre ++ (s, tl2) :: identify ipost)) ::
              identify post) := by simpa using hsi2.symm
        subst hp1
        have hgetp1 : (Layer.mk parent.tag parent.seq
            (pre ++ (nm, Layer.mk tl.tag tl.seq (ipre ++ (s, tl2) :: identify ipost)) ::
              identify post)).getattr nm =
            some (Layer.mk tl.tag tl.seq (ipre ++ (s, tl2) :: identify ipost)) :=
          getattr_decomp rfl hpre
        have htr1 : pyTruthyLayer
            (Layer.mk tl.tag tl.seq (ipre ++ (s, tl2) :: identify ipost)) = true :=
          pyTruthyLayer_mk_nonempty _ _ _ _ _ _
        have hitem1 : (Layer.mk tl.tag tl.seq
            (ipre ++ (s, tl2) :: identify ipost)).getitem s = some tl2 :=
          getitem_decomp rfl hipre
        have hcx : childAt (Layer.mk parent.tag parent.seq
            (pre ++ (nm, Layer.mk tl.tag tl.seq (ipre ++ (s, tl2) :: identify ipost)) ::
              identify post)) nm (some s) = some tl2 := by
          simp [childAt, hgetp1, hs, htr1, hitem1]
        rw [hcx] at hc2
        obtain rfl : tl2 = sub := by cases hc2; rfl
        obtain ⟨steps2', hrec2, hloop2⟩ := ih tl2 steps1 sub2 hrec hl2
        have hsetAt : setAt (Layer.mk parent.tag parent.seq
            (pre ++ (nm, Layer.mk tl.tag tl.seq (ipre ++ (s, tl2) :: identify ipost)) ::
              identify post)) nm (some s) sub2 =
            Layer.mk parent.tag parent.seq
              (pre ++ (nm, Layer.mk tl.tag tl.seq (ipre ++ (s, sub2) :: identify ipost)) ::
                identify post) := by
          simp [setAt, hgetp1, hs, htr1, assocSet_decomp hipre, assocSet_decomp hpre]
        rw [hsetAt] at hr
        subst hr
        have hget2 : (Layer.mk parent.tag parent.seq
            (pre ++ (nm, Layer.mk tl.tag tl.seq (ipre ++ (s, sub2) :: identify ipost)) ::
              identify post)).getattr nm =
            some (Layer.mk tl.tag tl.seq (ipre ++ (s, sub2) :: identify ipost)) :=
          getattr_decomp rfl hpre
        have htr2 : pyTruthyLayer
            (Layer.mk tl.tag tl.seq (ipre ++ (s, sub2) :: identify ipost)) = true :=
          pyTruthyLayer_mk_nonempty _ _ _ _ _ _
        have hitem2 : (Layer.mk tl.tag tl.seq
            (ipre ++ (s, sub2) :: identify ipost)).getitem s = some sub2 :=
          getitem_decomp rfl hipre
        have hlen2 : ¬(((Layer.mk tl.tag tl.seq
            (ipre ++ (s, sub2) :: identify ipost)).children.length : Int) ≤ i) := by
          have hlq : (Layer.mk tl.tag tl.seq
              (ipre ++ (s, sub2) :: identify ipost)).children.length =
              tl.children.length := by
            simp [hich, identify_length]
          rw [hlq]
          exact hlen
        refine ⟨⟨sub2, nm, some s⟩ :: steps2', ?_, ?_⟩
        · exact parseLoop_cons_eq_guardtrue hps hget2 (by simp [hs, htr2]) hint hneg
            hseq hlen2 hitem2 hrec2
        · have hsi3 : set_identity (Layer.mk parent.tag parent.seq
              (pre ++ (nm, Layer.mk tl.tag tl.seq (ipre ++ (s, sub2) :: identify ipost)) ::
                identify post)) nm (some s) =
              .ok (true, Layer.mk parent.tag parent.seq
                (pre ++ (nm, Layer.mk tl.tag tl.seq (ipre ++ (s, sub2) :: identify ipost)) ::
                  identify post)) := by
            have h0 := set_identity_idx (show (Layer.mk parent.tag parent.seq
                (pre ++ (nm, Layer.mk tl.tag tl.seq (ipre ++ (s, sub2) :: identify ipost)) ::
                  identify post)).children =
                pre ++ (nm, Layer.mk tl.tag tl.seq (ipre ++ (s, sub2) :: identify ipost)) ::
                  identify post from rfl)
              hpre hs (show (Layer.mk tl.tag tl.seq
                (ipre ++ (s, sub2) :: identify ipost)).children =
                ipre ++ (s, sub2) :: identify ipost from rfl) hipre hseq
            rw [identify_identify, identify_identify] at h0
            simpa using h0
          have hc3 : childAt (Layer.mk parent.tag parent.seq
              (pre ++ (nm, Layer.mk tl.tag tl.seq (ipre ++ (s, sub2) :: identify ipost)) ::
                identify post)) nm (some s) = some sub2 := by
            simp [childAt, hget2, hs, htr2, hitem2]
          have hres := stopAfterLoop_cons_eq sub2 hsi3 hc3 hloop2
          have hset2 : setAt (Layer.mk parent.tag parent.seq
              (pre ++ (nm, Layer.mk tl.tag tl.seq (ipre ++ (s, sub2) :: identify ipost)) ::
                identify post)) nm (some s) sub2 =
              Layer.mk parent.tag parent.seq
                (pre ++ (nm, Layer.mk tl.tag tl.seq (ipre ++ (s, sub2) :: identify ipost)) ::
                  identify post) := by
            simp [setAt, hget2, hs, htr2, assocSet_decomp hipre, assocSet_decomp hpre]
          rw [hset2] at hres
          exact hres

/-! ## Claim theorems -/

/-- C1 (counterexample): on `sampleRoot`, the pattern `blocks[x]` — whose
bracket text is not an integer literal — makes `parse_pattern_str` raise
`ValueError` from `int('x')` instead of reporting the `None` resolution
failure, refuting "a malformed pattern ... is always reported as a
resolution failure (None result) and never as a raised exception". -/
theorem parse_pattern_str_malformed_index_raises :
    parse_pattern_str "blocks[x]" sampleRoot = .error "ValueError" := rfl

/-- C1 (amended): resolution reports unknown attribute names and
out-of-range integer indices with the `None` sentinel, and for patterns
without bracketed indices it either succeeds or returns `None` and never
raises; but a bracketed index whose text is not an integer literal raises
`ValueError` (and indexing a truthy non-sequence attribute raises
`TypeError`) instead of returning `None`. -/
theorem parse_pattern_str_no_raise_without_brackets (root : Layer) (pattern : String)
    (hbr : ∀ seg ∈ pySplit '.' pattern, pyContains '[' seg = false) :
    ∃ r, parse_pattern_str pattern root = .ok r := by
  rw [parse_pattern_str]
  cases hsplit : (pySplit '.' pattern).isEmpty with
  | true => exact ⟨none, by simp [hsplit]⟩
  | false =>
    obtain ⟨r, hr⟩ := parseLoop_total_without_brackets (pySplit '.' pattern) root hbr
    exact ⟨r, by simp [hsplit, hr]⟩

/-- C1 (witness for the amended theorem at a concrete input). -/
theorem parse_pattern_str_no_raise_without_brackets_witness :
    ∃ r, parse_pattern_str "conv1.bn" sampleRoot = .ok r :=
  parse_pattern_str_no_raise_without_brackets sampleRoot "conv1.bn" (by decide)

/-- C5 (counterexample): on a root whose `blocks` attribute is an empty
`Sequential`, resolving `blocks[0]` — index 0 with sequence length 0, so
out of range — does *not* fail: the empty container is falsy, the guard
`if target_layer_index and target_layer:` skips the bounds check, and
resolution succeeds with the empty sequence itself as the resolved node. -/
theorem parse_pattern_str_empty_seq_index_not_rejected :
    parse_pattern_str "blocks[0]" emptySeqRoot =
      .ok (some [⟨seqLayer [], "blocks", some "0"⟩]) ∧
    (seqLayer []).children.length = 0 := ⟨rfl, rfl⟩

/-- C5 (amended): resolution is a pure read (the embedding threads no
state, mirroring that `parse_pattern_str` only reads the graph), and an
out-of-range integer index is rejected with the `None` sentinel whenever
the indexed attribute is *truthy*: a negative index is rejected on any
truthy attribute (the comparison short-circuits before `len()`), and an
index `≥ len` is rejected on a truthy sequence attribute; an indexed
segment whose attribute is an empty (falsy) sequence bypasses the check
entirely. -/
theorem parse_pattern_str_out_of_range_rejected
    (root : Layer) (pattern seg : String) (rest : List String) (nm s : String)
    (tl : Layer) (i : Int)
    (hsplit : pySplit '.' pattern = seg :: rest)
    (hseg : parseSegment seg = (nm, some s))
    (hs : pyTruthy (some s) = true)
    (hget : root.getattr nm = some tl)
    (htruthy : pyTruthyLayer tl = true)
    (hint : pyIntOfString s = some i) :
    (i < 0 → parse_pattern_str pattern root = .ok none) ∧
    (tl.seq = true → (tl.children.length : Int) ≤ i →
      parse_pattern_str pattern root = .ok none) := by
  have hbase : parse_pattern_str pattern root = parseLoop (seg :: rest) root := by
    rw [parse_pattern_str, hsplit]; rfl
  constructor
  · intro hneg
    rw [hbase]
    simp [parseLoop, hseg, hget, hs, htruthy, hint, hneg]
  · intro hseq hlen
    rw [hbase]
    by_cases hneg : i < 0
    · simp [parseLoop, hseg, hget, hs, htruthy, hint, hneg]
    · simp [parseLoop, hseg, hget, hs, htruthy, hint, hneg, hseq, hlen]

/-- C5 (witness for the amended theorem): `blocks[5]` on the three-element
sample sequence is rejected with `None`. -/
theorem parse_pattern_str_out_of_range_rejected_witness :
    parse_pattern_str "blocks[5]" sampleRoot = .ok none :=
  (parse_pattern_str_out_of_range_rejected sampleRoot "blocks[5]" "blocks[5]" []
    "blocks" "5" sampleBlocks 5 rfl rfl rfl rfl rfl rfl).2 rfl (by decide)

/-- C2 (counterexample): a pattern in the input list that fails to
resolve is not always silently skipped: `blocks[y]` on `sampleRoot` makes
the whole `upgrade_sublayer` call raise `ValueError` (propagated from
`parse_pattern_str`), so no pattern list is returned at all. -/
theorem upgrade_sublayer_raises_instead_of_skipping :
    upgrade_sublayer sampleRoot ["blocks[y]"] (fun l _ => l) = .error "ValueError" := rfl

/-- C2 (amended): for each pattern whose resolution returns the `None`
sentinel the graph is untouched and the pattern is skipped; for each
pattern that resolves successfully, the transform's output is installed at
the resolved address (re-reading through the resolution steps returns
`handle_func(target, pattern)`); when the call returns (no pattern raised),
the returned list is a subset of the input patterns in input order.  A
pattern whose resolution raises aborts the whole call instead of being
skipped. -/
theorem upgrade_sublayer_contract :
    (∀ (root : Layer) (p : String) (h : Layer → String → Layer),
      parse_pattern_str p root = .ok none →
      upgrade_sublayer root [p] h = .ok (root, [])) ∧
    (∀ (root : Layer) (ps : List String) (h : Layer → String → Layer)
       (r : Layer) (hits : List String),
      upgrade_sublayer root ps h = .ok (r, hits) → hits.Sublist ps) ∧
    (∀ (root : Layer) (p : String) (h : Layer → String → Layer)
       (steps : List Step) (ll : Step),
      parse_pattern_str p root = .ok (some steps) → steps.getLast? = some ll →
      ∃ root2, upgrade_sublayer root [p] h = .ok (root2, [p]) ∧
        getAtSteps root2 steps = some (h ll.layer p)) := by
  refine ⟨?_, ?_, ?_⟩
  · intro root p h hparse
    simp [upgrade_sublayer, upgradeOne, hparse]
  · intro root ps
    induction ps generalizing root with
    | nil =>
      intro h r hits hp
      rw [upgrade_sublayer] at hp
      cases hp
      exact List.Sublist.refl []
    | cons p rest ihp =>
      intro h r hits hp
      rw [upgrade_sublayer] at hp
      cases houp : upgradeOne root p h with
      | error e => simp only [houp] at hp; cases hp
      | ok o =>
        cases o with
        | none =>
          simp only [houp] at hp
          exact List.Sublist.cons p (ihp root h r hits hp)
        | some root2 =>
          simp only [houp] at hp
          cases hrec : upgrade_sublayer root2 rest h with
          | error e => simp only [hrec] at hp; cases hp
          | ok r2 =>
            simp only [hrec] at hp
            cases hp
            exact List.Sublist.cons₂ p (ihp root2 h r2.1 r2.2 (by rw [hrec]))
  · intro root p h steps ll hparse hlast
    have hne : steps ≠ [] := by
      intro hnil
      rw [hnil] at hlast
      cases hlast
    have hloop : parseLoop (pySplit '.' p) root = .ok (some steps) := by
      rw [parse_pattern_str] at hparse
      by_cases hemp : (pySplit '.' p).isEmpty = true
      · rw [if_pos hemp] at hparse; cases hparse
      · rwa [if_neg hemp] at hparse
    obtain ⟨root2, happ, ll2, hlast2, hgets⟩ :=
      applyAtLast_get (pySplit '.' p) root steps hloop hne h p
    obtain rfl : ll = ll2 := by rw [hlast] at hlast2; cases hlast2; rfl
    refine ⟨root2, ?_, hgets⟩
    have hisempty : steps.isEmpty = false := by
      cases steps with
      | nil => exact absurd rfl hne
      | cons a b => rfl
    simp [upgrade_sublayer, upgradeOne, hparse, hisempty, happ]

/-- C2 (witness): the contract applied to the end-to-end example
`blocks[2].dw_1` on `sampleRoot`. -/
theorem upgrade_sublayer_contract_witness :
    ∃ root2, upgrade_sublayer sampleRoot ["blocks[2].dw_1"] (fun _ _ => Identity) =
        .ok (root2, ["blocks[2].dw_1"]) ∧
      getAtSteps root2
        [⟨sampleBlock2, "blocks", some "2"⟩, ⟨leafLayer "ConvBNLayer", "dw_1", none⟩] =
        some Identity :=
  upgrade_sublayer_contract.2.2 sampleRoot "blocks[2].dw_1" (fun _ _ => Identity)
    [⟨sampleBlock2, "blocks", some "2"⟩, ⟨leafLayer "ConvBNLayer", "dw_1", none⟩]
    ⟨leafLayer "ConvBNLayer", "dw_1", none⟩ rfl rfl

/-- C4: `set_identity` replaces, in the parent's declared child iteration
order, every sibling *after* the matched name by an `Identity` node, and
— when an index is given — every element after the matched index inside
the matched (sequence) child; siblings before and including each match
are untouched.  In particular, for a named sequence of five children with
the target at position 2, positions 3 and 4 become `Identity` and
positions 0 through 2 are unchanged. -/
theorem set_identity_truncation_ordering :
    (∀ (parent : Layer) (pre post : List (String × Layer)) (nm : String) (c : Layer),
      parent.children = pre ++ (nm, c) :: post → lookupChild pre nm = none →
      set_identity parent nm none =
        .ok (true, Layer.mk parent.tag parent.seq (pre ++ (nm, c) :: identify post))) ∧
    (∀ (parent : Layer) (pre post ipre ipost : List (String × Layer))
       (nm s : String) (c ic : Layer),
      parent.children = pre ++ (nm, c) :: post → lookupChild pre nm = none →
      pyTruthy (some s) = true →
      c.children = ipre ++ (s, ic) :: ipost → lookupChild ipre s = none → c.seq = true →
      set_identity parent nm (some s) =
        .ok (true, Layer.mk parent.tag parent.seq
          (pre ++ (nm, Layer.mk c.tag c.seq (ipre ++ (s, ic) :: identify ipost)) ::
            identify post))) ∧
    set_identity fiveRoot "blocks" (some "2") =
      .ok (true, Layer.mk "P" false
        [("blocks", Layer.mk "Sequential" true
          [("0", leafLayer "L0"), ("1", leafLayer "L1"), ("2", leafLayer "L2"),
           ("3", Identity), ("4", Identity)])]) :=
  ⟨fun _ _ _ _ _ hch hpre => set_identity_noidx hch hpre rfl,
   fun _ _ _ _ _ _ _ _ _ hch hpre hs hich hipre hseq =>
     set_identity_idx hch hpre hs hich hipre hseq,
   rfl⟩

/-- C4 (witness): the non-indexed case applied to `sampleRoot` at
`conv1` — the later sibling `blocks` becomes `Identity`. -/
theorem set_identity_truncation_ordering_witness :
    set_identity sampleRoot "conv1" none =
      .ok (true, Layer.mk sampleRoot.tag sampleRoot.seq
        ([] ++ ("conv1", .mk "ConvBNLayer" false
            [("conv", leafLayer "Conv2D"), ("bn", leafLayer "BatchNorm")]) ::
          identify [("blocks", sampleBlocks)])) :=
  set_identity_truncation_ordering.1 sampleRoot []
    [("blocks", sampleBlocks)] "conv1"
    (.mk "ConvBNLayer" false [("conv", leafLayer "Conv2D"), ("bn", leafLayer "BatchNorm")])
    rfl rfl

/-- C6 (counterexample): replacing through an indexed pattern does not
always preserve the sequence length.  On a root whose `blocks` is an empty
`Sequential`, `blocks[0]` resolves via the falsy-container bypass and the
indexed assignment `getattr(parent, "blocks")["0"] = new` *appends* a new
entry: the sequence grows from length 0 to length 1. -/
theorem upgrade_sublayer_grows_empty_seq :
    upgrade_sublayer emptySeqRoot ["blocks[0]"] (fun _ _ => Identity) =
      .ok (.mk "Root" false [("blocks", .mk "Sequential" true [("0", Identity)])],
           ["blocks[0]"]) ∧
    (seqLayer []).children.length = 0 ∧
    (Layer.mk "Sequential" true [("0", Identity)]).children.length = 1 := ⟨rfl, rfl, rfl⟩

/-- C6 (amended): replacement substitutes exactly the node identified by
the final path segment within its resolved parent.  For a single-segment
non-indexed pattern the parent's child names and their order are unchanged
and only the matched entry's value changes; for a single-segment indexed
pattern whose index passes the bounds check (a truthy sequence attribute
with the matched key present), the named sequence keeps its length with
only the entry at the matched key changed.  (When the indexed attribute is
an empty falsy sequence the assignment appends instead — see the
counterexample.) -/
theorem upgrade_sublayer_replaces_in_place :
    (∀ (root : Layer) (p0 nm : String) (c : Layer) (pre post : List (String × Layer))
       (h : Layer → String → Layer),
      pySplit '.' p0 = [nm] → pyContains '[' nm = false →
      root.children = pre ++ (nm, c) :: post → lookupChild pre nm = none →
      upgrade_sublayer root [p0] h =
        .ok (Layer.mk root.tag root.seq (pre ++ (nm, h c p0) :: post), [p0])) ∧
    (∀ (root : Layer) (p0 seg nm s : String) (c ic : Layer)
       (pre post ipre ipost : List (String × Layer)) (i : Int) (h : Layer → String → Layer),
      pySplit '.' p0 = [seg] → parseSegment seg = (nm, some s) →
      pyTruthy (some s) = true →
      root.children = pre ++ (nm, c) :: post → lookupChild pre nm = none →
      c.seq = true → c.children = ipre ++ (s, ic) :: ipost → lookupChild ipre s = none →
      pyIntOfString s = some i → 0 ≤ i → i < (c.children.length : Int) →
      upgrade_sublayer root [p0] h =
        .ok (Layer.mk root.tag root.seq
          (pre ++ (nm, Layer.mk c.tag c.seq (ipre ++ (s, h ic p0) :: ipost)) :: post),
          [p0]) ∧
      (ipre ++ (s, h ic p0) :: ipost).length = c.children.length) := by
  constructor
  · intro root p0 nm c pre post h hsplit hbr hch hpre
    have hseg : parseSegment nm = (nm, none) := by
      rw [parseSegment, hbr]; simp
    have hget : root.getattr nm = some c := getattr_decomp hch hpre
    have hparse : parse_pattern_str p0 root = .ok (some [⟨c, nm, none⟩]) := by
      rw [parse_pattern_str, hsplit]
      simp [parseLoop, hseg, hget, pyTruthy]
    simp [upgrade_sublayer, upgradeOne, hparse, applyAtLast, applyReplace, hch,
      assocSet_decomp hpre, pyTruthy]
  · intro root p0 seg nm s c ic pre post ipre ipost i h hsplit hseg hs hch hpre hseq hich
      hipre hint hnn hlt
    have hget : root.getattr nm = some c := getattr_decomp hch hpre
    have htruthy : pyTruthyLayer c = true := by
      rw [pyTruthyLayer, if_pos hseq, hich]
      cases ipre <;> simp
    have hitem : c.getitem s = some ic := by
      rw [Layer.getitem, hich, lookupChild_append_none hipre, lookupChild_cons_self]
    have hneg : ¬(i < 0) := by omega
    have hlen : ¬((c.children.length : Int) ≤ i) := by omega
    have hparse : parse_pattern_str p0 root = .ok (some [⟨ic, nm, some s⟩]) := by
      rw [parse_pattern_str, hsplit]
      simp [parseLoop, hseg, hget, hs, htruthy, hint, hneg, hseq, hlen, hitem]
    constructor
    · simp [upgrade_sublayer, upgradeOne, hparse, applyAtLast, applyReplace, hs, hget,
        hseq, hich, hch, assocSet_decomp hipre, assocSet_decomp hpre]
    · rw [hich]; simp

/-- C6 (witness): the non-indexed case applied to `sampleRoot` at
`conv1`. -/
theorem upgrade_sublayer_replaces_in_place_witness :
    upgrade_sublayer sampleRoot ["conv1"] (fun _ _ => Identity) =
      .ok (Layer.mk sampleRoot.tag sampleRoot.seq
        ([] ++ ("conv1", Identity) :: [("blocks", sampleBlocks)]), ["conv1"]) :=
  upgrade_sublayer_replaces_in_place.1 sampleRoot "conv1" "conv1"
    (.mk "ConvBNLayer" false [("conv", leafLayer "Conv2D"), ("bn", leafLayer "BatchNorm")])
    [] [("blocks", sampleBlocks)] (fun _ _ => Identity) rfl rfl rfl rfl

/-- C3: `stop_after` returns `False` whenever resolution reports failure
(the `None` sentinel; the graph is then untouched); it returns `True`
only when the path actually resolved (to a non-empty step list) — each
level's `set_identity` having succeeded, a failing level returning
`False` instead; and a level's failure does not roll back earlier levels'
mutations: on `noRollbackRoot`, `a.b[0]` resolves, level `a` replaces the
sibling `d` by `Identity`, level `b[0]` replaces `c` and then fails on
the empty sequence `b`, and the call returns `False` with both mutations
kept. -/
theorem stop_after_contract :
    (∀ (root : Layer) (nm : String),
      parse_pattern_str nm root = .ok none → stop_after root nm = .ok (false, root)) ∧
    (∀ (root : Layer) (nm : String) (r : Layer),
      stop_after root nm = .ok (true, r) →
      ∃ steps, parse_pattern_str nm root = .ok (some steps) ∧ steps ≠ []) ∧
    (stop_after noRollbackRoot "a.b[0]" =
      .ok (false, Layer.mk "Root" false
        [("a", Layer.mk "A" false [("b", seqLayer []), ("c", Identity)]),
         ("d", Identity)]) ∧
     noRollbackRoot.getattr "d" = some (leafLayer "D")) := by
  refine ⟨?_, ?_, rfl, rfl⟩
  · intro root nm hparse
    simp [stop_after, hparse]
  · intro root nm r hp
    rw [stop_after] at hp
    cases hparse : parse_pattern_str nm root with
    | error e => simp only [hparse] at hp; cases hp
    | ok o =>
      cases o with
      | none =>
        simp only [hparse] at hp
        cases hp
      | some steps =>
        simp only [hparse] at hp
        cases hemp : steps.isEmpty with
        | true => rw [hemp] at hp; simp at hp
        | false =>
          exact ⟨steps, rfl, by
            cases steps with
            | nil => cases hemp
            | cons a b => simp⟩

/-- C3 (witness): an unresolvable path returns `False` and leaves the
graph unchanged. -/
theorem stop_after_contract_witness :
    stop_after sampleRoot "nope" = .ok (false, sampleRoot) :=
  stop_after_contract.1 sampleRoot "nope" rfl

/-- C7: truncation is idempotent.  For every layer graph and every path
for which `stop_after` succeeds, running `stop_after` again with the same
path on the truncated graph succeeds and produces the same graph: the
path re-resolves (path nodes are never replaced, and sequence lengths are
preserved), and all post-target siblings are already `Identity`. -/
theorem stop_after_idempotent (root : Layer) (p : String) (r1 : Layer)
    (h1 : stop_after root p = .ok (true, r1)) : stop_after r1 p = .ok (true, r1) := by
  rw [stop_after] at h1
  cases hparse : parse_pattern_str p root with
  | error e => simp only [hparse] at h1; cases h1
  | ok o =>
    cases o with
    | none => simp only [hparse] at h1; cases h1
    | some steps =>
      simp only [hparse] at h1
      cases hemp : steps.isEmpty with
      | true => rw [hemp] at h1; simp at h1
      | false =>
        rw [hemp] at h1
        simp only [Bool.false_eq_true, if_false] at h1
        have hsplitne : (pySplit '.' p).isEmpty = false := by
          rw [parse_pattern_str] at hparse
          cases hq : (pySplit '.' p).isEmpty with
          | true => rw [hq] at hparse; simp at hparse
          | false => rfl
        have hloop : parseLoop (pySplit '.' p) root = .ok (some steps) := by
          rw [parse_pattern_str, hsplitne] at hparse
          simpa using hparse
        obtain ⟨steps2, hparse2, hloop2⟩ := stopAfterLoop_idem _ root steps r1 hloop h1
        have hemp2 : steps2.isEmpty = false := by
          cases hsegs : pySplit '.' p with
          | nil => rw [hsegs] at hsplitne; cases hsplitne
          | cons seg rest =>
            rw [hsegs] at hparse2
            obtain ⟨tl, steps3, _, hcase⟩ := parseLoop_cons_inversion hparse2
            rcases hcase with ⟨_, _, hsteps⟩ | ⟨_, _, _, _, _, _, _, _, _, hsteps⟩ <;>
              (rw [hsteps]; rfl)
        have hparse2x : parse_pattern_str p r1 = .ok (some steps2) := by
          rw [parse_pattern_str, hsplitne]
          simpa using hparse2
        rw [stop_after]
        simp only [hparse2x, hemp2]
        simpa using hloop2

/-- C7 (witness): truncating `sampleRoot` after `blocks[1]` replaces
block 2 by `Identity`; truncating the result again is a fixed point. -/
theorem stop_after_idempotent_witness :
    stop_after (Layer.mk "ESNet" false
      [("conv1", .mk "ConvBNLayer" false
          [("conv", leafLayer "Conv2D"), ("bn", leafLayer "BatchNorm")]),
       ("blocks", seqLayer
          [("0", leafLayer "ESBlock2"), ("1", leafLayer "ESBlock1"), ("2", Identity)])])
      "blocks[1]" =
    .ok (true, Layer.mk "ESNet" false
      [("conv1", .mk "ConvBNLayer" false
          [("conv", leafLayer "Conv2D"), ("bn", leafLayer "BatchNorm")]),
       ("blocks", seqLayer
          [("0", leafLayer "ESBlock2"), ("1", leafLayer "ESBlock1"), ("2", Identity)])]) :=
  stop_after_idempotent sampleRoot "blocks[1]" _ rfl

/-- C8: with the result-capturing hooks attached, keys captured during one
forward pass never leak into the next pass's result mapping: the root
`_return_dict_hook` empties `res_dict` (so the buffer entering the second
pass is `[]`), and every key of the second result is either `"output"` or
a key captured by the second pass's own events. -/
theorem forward_pass_no_carry_over {α : Type u} (b0 ev1 : List (String × α)) (o1 : α)
    (ev2 : List (String × α)) (o2 : α) (k : String)
    (hk : k ∈ ((forward_pass (forward_pass b0 ev1 o1).2 ev2 o2).1.map Prod.fst)) :
    k = "output" ∨ k ∈ ev2.map Prod.fst := by
  have hempty : (forward_pass b0 ev1 o1).2 = [] := rfl
  rw [hempty] at hk
  simp only [forward_pass, return_dict_hook, save_sub_res_hook] at hk
  have h1 := keys_foldl_assocSet
    (ev2.foldl (fun b kv => assocSet b kv.1 kv.2) []) [("output", o2)] k hk
  rcases h1 with h | h
  · exact Or.inl (by simpa using h)
  · rcases keys_foldl_assocSet ev2 [] k (by simpa [save_sub_res_hook] using h) with h2 | h2
    · simp at h2
    · exact Or.inr h2

/-- C8 (witness): a concrete pair of passes; the key captured in pass one
is absent from pass two unless re-captured. -/
theorem forward_pass_no_carry_over_witness :
    ("b" ∈ ((forward_pass (forward_pass [] [("a", (1 : Nat))] 7).2
      [("b", 2)] 9).1.map Prod.fst)) ∧
    ("b" = "output" ∨ "b" ∈ [("b", (2 : Nat))].map Prod.fst) :=
  ⟨by decide, forward_pass_no_carry_over [] [("a", (1 : Nat))] 7 [("b", 2)] 9 "b" (by decide)⟩

/-- C9: calling `style_transfer` with `images=None` and `paths=None` logs
the informational message and returns Python `None` (no result list)
rather than raising. -/
theorem style_transfer_no_input {α β : Type} (flipBGR : α → α) (netRun : α → β)
    (readImage : String → α) :
    style_transfer flipBGR netRun readImage none none =
      (["No image provided. Please input an image or a image path."],
        StyleTransferOut.noResult) := rfl

/-- C10: in `DarkNet53.run_cmd`, whenever some provided input path does
not exist, the missing-file branch faults with `TypeError` — the format
string `"File %s or %s is not exist."` has two `%s` placeholders but is
applied to the single path string — and the intended `RuntimeError` is
never raised. -/
theorem run_cmd_missing_file_type_error {γ : Type u} (fileExists : String → Bool)
    (classification : List String → γ) (inputData : List String) (p : String)
    (hfind : inputData.find? (fun q => !fileExists q) = some p) :
    run_cmd_input_check fileExists classification inputData = .raised "TypeError" ∧
    ∀ m, run_cmd_input_check fileExists classification inputData ≠
      .raised ("RuntimeError: " ++ m) := by
  have hfmt : pyPercentFormat darknetMissingFileFmt p = .error "TypeError" := by
    rw [pyPercentFormat, if_neg (by decide)]
  have hrun : run_cmd_input_check fileExists classification inputData = .raised "TypeError" := by
    rw [run_cmd_input_check, find?_some_ne_nil hfind, hfind]
    simp [hfmt]
  refine ⟨hrun, fun m heq => ?_⟩
  rw [hrun] at heq
  obtain ⟨md⟩ := m
  have hstr : "TypeError" = "RuntimeError: " ++ String.mk md := by
    injection heq
  have hhead : ("TypeError" : String).data.head? =
      (String.mk ("RuntimeError: ".data ++ md)).data.head? :=
    congrArg (fun s : String => s.data.head?) hstr
  have hR : (String.mk ("RuntimeError: ".data ++ md)).data.head? = some 'R' := rfl
  have hT : ("TypeError" : String).data.head? = some 'T' := rfl
  rw [hT, hR] at hhead
  exact absurd hhead (by decide)

/-- C10 (witness): one missing concrete path. -/
theorem run_cmd_missing_file_type_error_witness :
    run_cmd_input_check (fun _ => false) (fun l : List String => l) ["cat.jpg"] =
      .raised "TypeError" :=
  (run_cmd_missing_file_type_error (fun _ => false) (fun l => l) ["cat.jpg"] "cat.jpg" rfl).1

end PaddleHubModel
